import Mathlib

/-!
Shallow embedding of the ranking pipeline of src/app.py (Talent Match
Intelligence System, a Streamlit dashboard over a Supabase store).

Cell values of the RPC result are modelled by `Value`, records by
association lists, and the pandas operations of lines 155-282 of app.py by
the executable functions below.  Rationals stand for Python floats; the
pandas missing value NaN and the JSON null are both modelled by
`Value.null` (respectively `Option.none`).
-/

namespace EmployeeApp

/-- A cell of a record returned by the get_talent_match_results RPC. -/
inductive Value where
  | null
  | num (q : ℚ)
  | str (s : String)
deriving DecidableEq, Repr

/-- A record (one JSON object row): association list of field names to
values, in key order. -/
abbrev Rec := List (String × Value)

/-- Cell of row r at column c; a missing key reads as the missing value
(as in a pandas DataFrame built from a list of dicts). -/
def getCol : Rec → String → Value
  | [], _ => .null
  | p :: r, c => if p.1 = c then p.2 else getCol r c

/-- Whether row r carries column c at all. -/
def hasCol : Rec → String → Bool
  | [], _ => false
  | p :: r, c => if p.1 = c then true else hasCol r c

/-- Python str.strip: drop surrounding whitespace. -/
def pyStrip (s : String) : String :=
  String.mk (((s.data.dropWhile Char.isWhitespace).reverse.dropWhile
    Char.isWhitespace).reverse)

/-- Python str.lower. -/
def pyLower (s : String) : String := String.mk (s.data.map Char.toLower)

def digitsVal (cs : List Char) : Nat :=
  cs.foldl (fun a c => a * 10 + (c.toNat - 48)) 0

/-- Decimal numeral parser modelling pandas.to_numeric on strings: optional
sign, digits, optional fraction, surrounding whitespace allowed.
(Exponent notation is out of model.) -/
def parseDec (s : String) : Option ℚ :=
  let cs := (pyStrip s).data
  let signed : ℚ × List Char :=
    match cs with
    | '-' :: t => (-1, t)
    | '+' :: t => (1, t)
    | _ => (1, cs)
  let ip := signed.2.takeWhile Char.isDigit
  let rest := signed.2.dropWhile Char.isDigit
  match rest with
  | [] => if ip.isEmpty then none else some (signed.1 * (digitsVal ip : ℚ))
  | '.' :: fp =>
    if fp.all Char.isDigit && !(ip.isEmpty && fp.isEmpty) then
      some (signed.1 *
        ((digitsVal ip : ℚ) + (digitsVal fp : ℚ) / (10 : ℚ) ^ fp.length))
    else none
  | _ => none

/-- pandas.to_numeric with errors="coerce" on one cell: numbers pass
through, numeric strings parse, everything else (including missing)
becomes the missing value, never an error (app.py lines 186-189). -/
def toNumeric : Value → Option ℚ
  | .null => none
  | .num q => some q
  | .str s => parseDec s

def coerceCell (v : Value) : Value :=
  match toNumeric v with
  | some q => .num q
  | none => .null

/-- Python truthiness of a cell (used by the lambda at app.py line 195). -/
def truthy : Value → Bool
  | .null => false
  | .num q => decide (q ≠ 0)
  | .str s => decide (s ≠ "")

/-- Python str() of a cell. -/
def pyStr : Value → String
  | .null => "None"
  | .num q => toString q
  | .str s => s

def sentinel : String := "Data Tidak Ditemukan"

/-- One descriptive-column cell through app.py lines 194-195:
fillna("") . replace("None", "") . replace("null", "") and then
(str(x).strip() if x else sentinel). -/
def cleanCell (v : Value) : Value :=
  let v1 := match v with
    | .null => Value.str ""
    | x => x
  let v2 := if v1 = Value.str "None" ∨ v1 = Value.str "null"
    then Value.str "" else v1
  if truthy v2 then .str (pyStrip (pyStr v2)) else .str sentinel

/-- app.py line 186. -/
def numericCols : List String :=
  ["baseline_score", "user_score", "tv_match_rate", "tgv_match_rate",
   "final_match_rate"]

/-- app.py line 192. -/
def stringCols : List String :=
  ["position_name", "directorate", "grade", "fullname"]

/-- Apply f to the cells of column c (a vectorized df[col] assignment). -/
def transformCol (f : Value → Value) (c : String) (r : Rec) : Rec :=
  r.map (fun p => if p.1 = c then (p.1, f p.2) else p)

/-- app.py line 183: column labels are stripped and lowercased. -/
def normKeys (r : Rec) : Rec :=
  r.map (fun p => (pyLower (pyStrip p.1), p.2))

/-- The column set of a DataFrame built from a list of dicts: the union of
the key sets.  (Order of the labels never matters below, only
membership, so the dedup orientation is irrelevant.) -/
def columnsOf (rows : List Rec) : List String :=
  ((rows.map (fun r => r.map Prod.fst)).flatten).dedup

/-- Materialize a row over the full column list, missing keys becoming the
missing value (what pd.DataFrame(list_of_dicts) does). -/
def reindex (cols : List String) (r : Rec) : Rec :=
  cols.map (fun c => (c, getCol r c))

/-- The per-column loops of app.py lines 187-189 and 193-195: transform
each listed column, provided it is present. -/
def applyCols (f : Value → Value) (targets cols : List String) (r : Rec) :
    Rec :=
  targets.foldl (fun acc c => if c ∈ cols then transformCol f c acc
    else acc) r

/-- Ingestion (app.py lines 183-195): normalize column labels, build the
tabular rows, coerce the numeric columns, clean the descriptive string
columns.  Returns the column list and the normalized rows. -/
def ingest (raw : List Rec) : List String × List Rec :=
  let rawN := raw.map normKeys
  let cols := columnsOf rawN
  let rows := rawN.map (fun r =>
    applyCols cleanCell stringCols cols
      (applyCols coerceCell numericCols cols (reindex cols r)))
  (cols, rows)

/-- df.empty at app.py line 169 (checked on the raw frame, before any
normalization): no rows, or rows that carry no columns at all. -/
def dfEmpty (raw : List Rec) : Bool :=
  raw.isEmpty || ((raw.map (fun r => r.map Prod.fst)).flatten).isEmpty

/-- One aggregated row of df_emp (app.py lines 240-256). -/
structure EmpRow where
  employee_id : Value
  fullname : Option String
  position_name : Option String
  directorate : Option String
  grade : Option String
  final_match_rate : Option ℚ
deriving DecidableEq, Repr

/-- first_nonempty (app.py lines 209-212): dropna, astype(str), strip,
keep the first value that is not the empty string, else the sentinel. -/
def firstNonempty : List Value → String
  | [] => sentinel
  | v :: t =>
    if v = Value.null then firstNonempty t
    else if pyStrip (pyStr v) = "" then firstNonempty t
    else pyStrip (pyStr v)

/-- Series.max of the non-missing values of a coerced numeric column
(app.py line 251: g[col].dropna().max(); empty gives NaN). -/
def qmax : List ℚ → Option ℚ
  | [] => none
  | q :: t =>
    match qmax t with
    | none => some q
    | some m => some (max q m)

def nonNullNums (vs : List Value) : List ℚ :=
  vs.filterMap (fun v => match v with
    | .num q => some q
    | _ => none)

def colVals (rows : List Rec) (c : String) : List Value :=
  rows.map (fun r => getCol r c)

/-- The distinct non-missing group keys of df.groupby("employee_id")
(pandas drops missing keys: dropna=True is the default).  pandas orders
the groups by sorted key; no theorem below depends on group order, so the
first-found order of dedup is kept. -/
def groupKeys (rows : List Rec) : List Value :=
  ((rows.map (fun r => getCol r "employee_id")).filter
    (fun v => v ≠ Value.null)).dedup

def groupRows (rows : List Rec) (k : Value) : List Rec :=
  rows.filter (fun r => getCol r "employee_id" = k)

/-- One pass of the per-employee loop body (app.py lines 239-256). -/
def aggRow (cols : List String) (rows : List Rec) (k : Value) : EmpRow :=
  let g := groupRows rows k
  { employee_id := k
    fullname := if "fullname" ∈ cols
      then some (firstNonempty (colVals g "fullname")) else none
    position_name := if "position_name" ∈ cols
      then some (firstNonempty (colVals g "position_name")) else none
    directorate := if "directorate" ∈ cols
      then some (firstNonempty (colVals g "directorate")) else none
    grade := if "grade" ∈ cols
      then some (firstNonempty (colVals g "grade")) else none
    final_match_rate := if "final_match_rate" ∈ cols
      then qmax (nonNullNums (colVals g "final_match_rate")) else none }

/-- df_emp (app.py lines 237-257): one aggregated row per group. -/
def aggregate (cols : List String) (rows : List Rec) : List EmpRow :=
  (groupKeys rows).map (aggRow cols rows)

/-- Comparator of the descending rank order: a should come no later than
b (missing values last, pandas na_position="last"). -/
def rankGE (a b : Option ℚ) : Bool :=
  match a, b with
  | some x, some y => decide (y ≤ x)
  | some _, none => true
  | none, some _ => false
  | none, none => true

def insertRanked (x : EmpRow) : List EmpRow → List EmpRow
  | [] => [x]
  | y :: ys =>
    if rankGE y.final_match_rate x.final_match_rate then y :: insertRanked x ys
    else x :: y :: ys

/-- df_emp.sort_values("final_match_rate", ascending=False) at app.py line
279: descending by final_match_rate with missing values placed last.  The
pandas default kind="quicksort" leaves the permutation of tied rows
unspecified (and platform dependent); it is modelled here as a stable
insertion sort, and no theorem below depends on the order of tied rows. -/
def sortRanked (l : List EmpRow) : List EmpRow :=
  l.foldl (fun acc x => insertRanked x acc) []

/-- One row of df_display (app.py line 280). -/
structure DisplayRow where
  fullname : String
  position_name : String
  directorate : String
  grade : String
  final_match_rate : Option ℚ
deriving DecidableEq, Repr

def displayOf (e : EmpRow) : Option DisplayRow :=
  match e.fullname, e.position_name, e.directorate, e.grade with
  | some f, some p, some d, some g =>
    some ⟨f, p, d, g, e.final_match_rate⟩
  | _, _, _, _ => none

/-- Terminal states of the result-processing part of the submit handler. -/
inductive Outcome (α : Type) where
  | ok (a : α)
  /-- Line 170: st.warning("Tidak ada hasil match ditemukan") + st.stop. -/
  | noResults
  /-- Line 263: empty per-employee aggregation, st.warning + st.stop. -/
  | emptyAggregation
  /-- A failure: an st.error + st.stop, or an uncaught exception. -/
  | error (msg : String)
deriving DecidableEq, Repr

def isErrorOutcome {α : Type} : Outcome α → Bool
  | .error _ => true
  | _ => false

/-- The pipeline from the RPC result to the ranked display (app.py lines
155-282): empty guard, ingestion, per-employee aggregation (groupby raises
KeyError when employee_id is absent, caught at line 258), empty-aggregation
guard, descending sort, and the df_display column selection at line 280,
which raises an uncaught KeyError when a descriptive column is absent. -/
def processResults (raw : List Rec) :
    Outcome (List EmpRow × List DisplayRow) :=
  if dfEmpty raw then .noResults
  else
    let cols := (ingest raw).1
    let rows := (ingest raw).2
    if "employee_id" ∉ cols then .error "KeyError: employee_id"
    else
      let emp := aggregate cols rows
      if emp.isEmpty then .emptyAggregation
      else
        if "fullname" ∈ cols ∧ "position_name" ∈ cols ∧
            "directorate" ∈ cols ∧ "grade" ∈ cols then
          .ok (emp, (sortRanked emp).filterMap displayOf)
        else .error "KeyError: missing display column"

/-- Number of RankedSubjects a run produces. -/
def rankedCount (raw : List Rec) : Nat :=
  match processResults raw with
  | .ok (emp, _) => emp.length
  | _ => 0

/-! ### The submit handler as an event trace (app.py lines 62-150) -/

/-- What one remote call did: raised, or returned with truthy or falsy
data. -/
inductive CallRes where
  | raises
  | returns (dataNonempty : Bool)
deriving DecidableEq, Repr

/-- External calls of one submit handling cycle that the claims talk
about.  The read-only debug fetches of lines 92-144 sit between the
insert and the scoring call and are not modelled. -/
inductive Event where
  | benchmarkInsert
  | scoringCall
  | geminiCall
deriving DecidableEq, Repr

structure RunInput where
  roleName : String
  jobLevel : String
  rolePurpose : String
  selectedNames : List String
  /-- The talent_benchmarks insert at line 72. -/
  insertRes : CallRes
  /-- Whether the get_talent_match_results RPC at line 150 raises. -/
  rpcRaises : Bool
  /-- The rows it returns otherwise. -/
  rpcRows : List Rec
deriving Repr

/-- Line 63: every form field must be truthy. -/
def formOk (i : RunInput) : Bool :=
  decide (i.roleName ≠ "") && decide (i.jobLevel ≠ "") &&
    decide (i.rolePurpose ≠ "") && !i.selectedNames.isEmpty

/-- The ordered external calls one submit run performs: nothing when the
form is invalid (line 64 stops); the insert; then, only when the insert
returned truthy data (line 79 stops otherwise, and a raise aborts the
script), the scoring call; then, only when the pipeline reached the AI
section, the three Gemini calls (lines 370-377). -/
def runTrace (i : RunInput) : List Event :=
  if !formOk i then []
  else
    Event.benchmarkInsert ::
      (match i.insertRes with
       | .raises => []
       | .returns false => []
       | .returns true =>
         Event.scoringCall ::
           (if i.rpcRaises then []
            else match processResults i.rpcRows with
              | .ok _ => [Event.geminiCall, Event.geminiCall,
                  Event.geminiCall]
              | _ => []))

/-! ### The Gemini narrative call (app.py lines 318-333, 370-377) -/

/-- How the response body of a 200 response parses: valid JSON carrying
candidates[0].content.parts[0].text; valid JSON without that path; or not
valid JSON at all, in which case res.json() raises the given exception. -/
inductive GemBody where
  | jsonText (t : String)
  | jsonNoText
  | notJson (e : String)
deriving DecidableEq, Repr

/-- What requests.post did: raised (connectivity failure), or returned a
response with a status code, a text, and a body. -/
inductive HttpOutcome where
  | raises (e : String)
  | resp (status : Nat) (text : String) (body : GemBody)
deriving DecidableEq, Repr

/-- call_gemini (lines 321-333).  Except.error models an uncaught Python
exception: requests.post at line 326 and res.json() at line 329 are both
outside the try block, so a connectivity failure or a non-JSON body
propagates out of the function; only the field access
data["candidates"][0]["content"]["parts"][0]["text"] is inside the
try, whose bare except returns the fallback string. -/
def callGemini (apiKey : Option String) (h : HttpOutcome) :
    Except String String :=
  match apiKey with
  | none => .ok "[AI Error: GOOGLE_API_KEY tidak ditemukan]"
  | some _ =>
    match h with
    | .raises e => .error e
    | .resp status text body =>
      if status ≠ 200 then
        .ok ("[AI Error " ++ toString status ++ "] " ++ text)
      else
        match body with
        | .jsonText t => .ok t
        | .jsonNoText => .ok "[AI tidak mengembalikan hasil]"
        | .notJson e => .error e

structure GeminiEnv where
  apiKey : Option String
  postProfile : HttpOutcome
  postFormula : HttpOutcome
  postCandidates : HttpOutcome
deriving Repr

/-- The three expander writes of lines 370-377, in order; an exception in
one aborts the script before the next. -/
def narrative (env : GeminiEnv) : Except String (String × String × String) := do
  let a ← callGemini env.apiKey env.postProfile
  let b ← callGemini env.apiKey env.postFormula
  let c ← callGemini env.apiKey env.postCandidates
  pure (a, b, c)

/-- Ranking pipeline plus narrative section of one run: the narrative runs
only after a successful pipeline, and its result is never fed back into
the pipeline output. -/
def fullRun (raw : List Rec) (env : GeminiEnv) :
    Outcome (List EmpRow × List DisplayRow) ×
      Option (Except String (String × String × String)) :=
  match processResults raw with
  | .ok res => (.ok res, some (narrative env))
  | o => (o, none)

/-! ### Benchmark name resolution (app.py lines 29-34 and 69-70) -/

/-- One row of the employees table. -/
structure EmpRec where
  employee_id : String
  fullname : String
deriving DecidableEq, Repr

def pyCharsLt : List Char → List Char → Bool
  | _, [] => false
  | [], _ :: _ => true
  | a :: as, b :: bs =>
    if a.toNat < b.toNat then true
    else if b.toNat < a.toNat then false
    else pyCharsLt as bs

/-- Python string less-than: lexicographic by code point. -/
def pyStrLt (a b : String) : Bool := pyCharsLt a.data b.data

def insFull (x : EmpRec) : List EmpRec → List EmpRec
  | [] => [x]
  | y :: ys =>
    if pyStrLt x.fullname y.fullname then x :: y :: ys else y :: insFull x ys

/-- Python sorted(res.data, key=lambda x: x["fullname"]): a stable sort by
fullname. -/
def sortByFullname (l : List EmpRec) : List EmpRec :=
  l.foldl (fun acc x => insFull x acc) []

/-- Python dict insertion: an existing key keeps its position and gets the
new value, a new key is appended. -/
def dictInsert (d : List (String × String)) (k v : String) :
    List (String × String) :=
  if k ∈ d.map Prod.fst then
    d.map (fun p => if p.1 = k then (k, v) else p)
  else d ++ [(k, v)]

def buildDict (ps : List (String × String)) : List (String × String) :=
  ps.foldl (fun d p => dictInsert d p.1 p.2) []

/-- get_employees (lines 30-34): the dict employee_id to fullname built by
comprehension over the fullname-sorted directory. -/
def getEmployeesDict (data : List EmpRec) : List (String × String) :=
  buildDict ((sortByFullname data).map (fun e => (e.employee_id, e.fullname)))

/-- id_map (line 69): the inverted dict fullname to employee_id. -/
def idMap (data : List EmpRec) : List (String × String) :=
  buildDict ((getEmployeesDict data).map (fun p => (p.2, p.1)))

/-- Python dict lookup. -/
def dictGet : List (String × String) → String → Option String
  | [], _ => none
  | p :: d, k => if p.1 = k then some p.2 else dictGet d k

/-! ## Concrete inputs used by counterexamples and witnesses -/

def c3raw : List Rec :=
  [[("employee_id", Value.str "e1"), ("final_match_rate", Value.str "abc")]]

def c3wraw : List Rec :=
  [[("employee_id", Value.str "e1"), ("final_match_rate", Value.num 80)]]

def c3wrow : Rec :=
  [("employee_id", Value.str "e1"), ("final_match_rate", Value.num 80)]

def c6raw : List Rec :=
  [[("employee_id", Value.str "e1"), ("fullname", Value.str " "),
    ("position_name", Value.str "P"), ("directorate", Value.str "D"),
    ("grade", Value.str "G")]]

def c2rows : List Rec :=
  [[("employee_id", Value.str "e1"), ("final_match_rate", Value.num 80)],
   [("employee_id", Value.str "e1"), ("final_match_rate", Value.null)],
   [("employee_id", Value.str "e1"), ("final_match_rate", Value.num 90)]]

def c5raw : List Rec :=
  [[("employee_id", Value.str "e1"), ("fullname", Value.str "A"),
    ("position_name", Value.str "P"), ("directorate", Value.str "D"),
    ("final_match_rate", Value.num 80)]]

def c5wraw : List Rec :=
  [[("employee_id", Value.str "e1"), ("fullname", Value.str "A"),
    ("position_name", Value.str "P"), ("directorate", Value.str "D"),
    ("grade", Value.str "G")]]

def c4raw : List Rec :=
  [[("employee_id", Value.str "e1"), ("final_match_rate", Value.num 80)],
   [("employee_id", Value.null), ("final_match_rate", Value.num 70)]]

def c4wraw : List Rec :=
  [[("employee_id", Value.str "e7"), ("fullname", Value.str "A"),
    ("position_name", Value.str "P"), ("directorate", Value.str "D"),
    ("grade", Value.str "G")]]

def c4wEmp : List EmpRow :=
  [{ employee_id := Value.str "e7", fullname := some "A",
     position_name := some "P", directorate := some "D", grade := some "G",
     final_match_rate := none }]

def c4wDisp : List DisplayRow :=
  [{ fullname := "A", position_name := "P", directorate := "D",
     grade := "G", final_match_rate := none }]

def c8win : RunInput :=
  { roleName := "R", jobLevel := "Staff", rolePurpose := "P",
    selectedNames := ["A"], insertRes := .returns true,
    rpcRaises := false, rpcRows := [] }

def c8win2 : RunInput :=
  { roleName := "R", jobLevel := "Staff", rolePurpose := "P",
    selectedNames := ["A"], insertRes := .returns false,
    rpcRaises := false, rpcRows := [] }

def c9env : GeminiEnv :=
  { apiKey := some "key",
    postProfile := HttpOutcome.raises "ConnectionError",
    postFormula := HttpOutcome.resp 200 "" (GemBody.jsonText "t"),
    postCandidates := HttpOutcome.resp 200 "" (GemBody.jsonText "t") }

def c10data : List EmpRec :=
  [⟨"id1", "Budi"⟩, ⟨"id2", "Andi"⟩, ⟨"id3", "Budi"⟩]

/-! ## Helper lemmas about rows and the per-column transforms -/

theorem getCol_eq_null_of_hasCol_false {r : Rec} {c : String}
    (h : hasCol r c = false) : getCol r c = Value.null := by
  induction r with
  | nil => rfl
  | cons p r ih =>
    by_cases hp : p.1 = c
    · simp [hasCol, hp] at h
    · simp only [getCol, if_neg hp]
      exact ih (by simpa [hasCol, hp] using h)

theorem hasCol_transformCol (f : Value → Value) (c c' : String) (r : Rec) :
    hasCol (transformCol f c r) c' = hasCol r c' := by
  induction r with
  | nil => rfl
  | cons p r ih =>
    by_cases hp : p.1 = c <;>
      simp [transformCol, hasCol, hp, ih] <;> simp [hasCol, ← ih, transformCol]

theorem getCol_transformCol_ne (f : Value → Value) {c c' : String} (r : Rec)
    (h : c' ≠ c) : getCol (transformCol f c r) c' = getCol r c' := by
  induction r with
  | nil => rfl
  | cons p r ih =>
    simp only [transformCol, List.map_cons]
    by_cases hp : p.1 = c
    · rw [if_pos hp]
      have hp' : ¬ p.1 = c' := fun hh => h (hh.symm.trans hp)
      show (if p.1 = c' then f p.2 else getCol (transformCol f c r) c') =
        (if p.1 = c' then p.2 else getCol r c')
      rw [if_neg hp', if_neg hp']
      exact ih
    · rw [if_neg hp]
      show (if p.1 = c' then p.2 else getCol (transformCol f c r) c') =
        (if p.1 = c' then p.2 else getCol r c')
      by_cases hp' : p.1 = c'
      · rw [if_pos hp', if_pos hp']
      · rw [if_neg hp', if_neg hp']
        exact ih

theorem getCol_transformCol_self (f : Value → Value) {c : String} (r : Rec)
    (h : hasCol r c = true) :
    getCol (transformCol f c r) c = f (getCol r c) := by
  induction r with
  | nil => simp [hasCol] at h
  | cons p r ih =>
    by_cases hp : p.1 = c
    · simp [transformCol, getCol, hp]
    · simp only [transformCol, List.map_cons, if_neg hp, getCol]
      exact ih (by simpa [hasCol, hp] using h)

theorem hasCol_reindex (cols : List String) (r : Rec) (c : String) :
    hasCol (reindex cols r) c = true ↔ c ∈ cols := by
  induction cols with
  | nil => simp [reindex, hasCol]
  | cons c0 cols ih =>
    by_cases h0 : c0 = c
    · simp [reindex, hasCol, h0]
    · simp only [reindex, List.map_cons, hasCol, if_neg h0, List.mem_cons]
      rw [show (cols.map fun c => (c, getCol r c)) = reindex cols r from rfl]
      rw [ih]
      constructor
      · exact Or.inr
      · rintro (h | h)
        · exact absurd h.symm h0
        · exact h

theorem getCol_reindex_mem {cols : List String} (r : Rec) {c : String}
    (h : c ∈ cols) : getCol (reindex cols r) c = getCol r c := by
  induction cols with
  | nil => simp at h
  | cons c0 cols ih =>
    by_cases h0 : c0 = c
    · simp [reindex, getCol, h0]
    · simp only [reindex, List.map_cons, getCol, if_neg h0]
      exact ih ((List.mem_cons.mp h).resolve_left (fun hh => h0 hh.symm))

theorem applyCols_cons (f : Value → Value) (t : String) (ts cols : List String)
    (r : Rec) :
    applyCols f (t :: ts) cols r =
      applyCols f ts cols (if t ∈ cols then transformCol f t r else r) := rfl

theorem hasCol_applyCols (f : Value → Value) (ts cols : List String) (r : Rec)
    (c : String) : hasCol (applyCols f ts cols r) c = hasCol r c := by
  induction ts generalizing r with
  | nil => rfl
  | cons t ts ih =>
    rw [applyCols_cons, ih]
    split
    · exact hasCol_transformCol f t c r
    · rfl

theorem getCol_applyCols_not_mem (f : Value → Value) {ts : List String}
    (cols : List String) (r : Rec) {c : String} (h : c ∉ ts) :
    getCol (applyCols f ts cols r) c = getCol r c := by
  induction ts generalizing r with
  | nil => rfl
  | cons t ts ih =>
    have hne : c ≠ t := fun hh => h (hh ▸ List.mem_cons_self t ts)
    have hts : c ∉ ts := fun hh => h (List.mem_cons_of_mem t hh)
    rw [applyCols_cons, ih _ hts]
    split
    · exact getCol_transformCol_ne f r hne
    · rfl

theorem getCol_applyCols_mem (f : Value → Value) {ts : List String}
    {cols : List String} (r : Rec) {c : String} (hnd : ts.Nodup)
    (ht : c ∈ ts) (hc : c ∈ cols) (hk : hasCol r c = true) :
    getCol (applyCols f ts cols r) c = f (getCol r c) := by
  induction ts generalizing r with
  | nil => simp at ht
  | cons t ts ih =>
    rw [applyCols_cons]
    by_cases hct : c = t
    · subst hct
      have hnotmem : c ∉ ts := (List.nodup_cons.mp hnd).1
      rw [if_pos hc, getCol_applyCols_not_mem f cols _ hnotmem]
      exact getCol_transformCol_self f r hk
    · have hts : c ∈ ts := (List.mem_cons.mp ht).resolve_left hct
      have hnd' : ts.Nodup := (List.nodup_cons.mp hnd).2
      split
      · rw [ih _ hnd' hts (by rw [hasCol_transformCol]; exact hk),
          getCol_transformCol_ne f r hct]
      · exact ih r hnd' hts hk

/-! ## Helper lemmas about cleanCell and qmax -/

theorem cleanCell_str_other {s : String} (h1 : s ≠ "") (h2 : s ≠ "None")
    (h3 : s ≠ "null") : cleanCell (Value.str s) = Value.str (pyStrip s) := by
  simp [cleanCell, truthy, pyStr, h1, h2, h3]

theorem cleanCell_isStr (v : Value) : ∃ s, cleanCell v = Value.str s := by
  cases v with
  | null => exact ⟨sentinel, rfl⟩
  | num q =>
    by_cases hq : q = 0
    · exact ⟨sentinel, by simp [cleanCell, truthy, hq]⟩
    · exact ⟨pyStrip (pyStr (Value.num q)), by simp [cleanCell, truthy, hq]⟩
  | str s =>
    by_cases hns : s = "None" ∨ s = "null"
    · refine ⟨sentinel, ?_⟩
      rcases hns with h | h <;> subst h <;> rfl
    · by_cases he : s = ""
      · exact ⟨sentinel, by subst he; rfl⟩
      · exact ⟨pyStrip s, cleanCell_str_other he (fun h => hns (Or.inl h))
          (fun h => hns (Or.inr h))⟩

theorem qmax_eq_none {l : List ℚ} : qmax l = none ↔ l = [] := by
  cases l with
  | nil => simp [qmax]
  | cons q t =>
    simp only [qmax]
    cases h : qmax t <;> simp

theorem qmax_mem {l : List ℚ} : ∀ {m : ℚ}, qmax l = some m → m ∈ l := by
  induction l with
  | nil => intro m h; simp [qmax] at h
  | cons q t ih =>
    intro m h
    simp only [qmax] at h
    cases ht : qmax t with
    | none =>
      rw [ht] at h
      simp only [Option.some.injEq] at h
      subst h
      exact List.mem_cons_self q t
    | some m' =>
      rw [ht] at h
      simp only [Option.some.injEq] at h
      subst h
      rcases max_choice q m' with hc | hc
      · rw [hc]; exact List.mem_cons_self q t
      · rw [hc]; exact List.mem_cons_of_mem q (ih ht)

theorem qmax_isUB {l : List ℚ} : ∀ {m : ℚ}, qmax l = some m →
    ∀ x ∈ l, x ≤ m := by
  induction l with
  | nil => intro m h; simp [qmax] at h
  | cons q t ih =>
    intro m h x hx
    simp only [qmax] at h
    cases ht : qmax t with
    | none =>
      rw [ht] at h
      simp only [Option.some.injEq] at h
      have hte : t = [] := qmax_eq_none.mp ht
      subst hte
      simp only [List.mem_singleton] at hx
      exact le_of_eq (hx.trans h)
    | some m' =>
      rw [ht] at h
      simp only [Option.some.injEq] at h
      rcases List.mem_cons.mp hx with hq | hmem
      · rw [hq, ← h]; exact le_max_left q m'
      · rw [← h]; exact le_trans (ih ht x hmem) (le_max_right q m')

/-! ## Claim theorems -/

/-- Claim C3, counterexample.  The claim says a non-numeric or missing
value in a numeric field is coerced to exactly 0; but to_numeric with
errors="coerce" (app.py line 189) yields the missing value NaN, not 0:
ingesting a row whose final_match_rate is the string "abc" leaves a null
cell, and null is not the number 0. -/
theorem c3_counterexample :
    (ingest c3raw).2 =
      [[("employee_id", Value.str "e1"), ("final_match_rate", Value.null)]] ∧
    toNumeric (Value.str "abc") = none ∧
    toNumeric Value.null = none ∧
    Value.null ≠ Value.num 0 := by decide

/-- Claim C3, amended: a non-numeric or missing value in a numeric field
is coerced to null (NaN), not 0, and coercion is total (never raises):
after ingestion every cell of a numeric column is either null or a
number. -/
theorem c3_coercion_amended :
    (∀ (raw : List Rec) (r : Rec) (c : String), r ∈ (ingest raw).2 →
      c ∈ numericCols →
      getCol r c = Value.null ∨ ∃ q : ℚ, getCol r c = Value.num q) ∧
    coerceCell Value.null = Value.null ∧
    (∀ s : String, parseDec s = none →
      coerceCell (Value.str s) = Value.null) := by
  refine ⟨?_, rfl, ?_⟩
  · intro raw r c hr hc
    have hns : c ∉ stringCols := by
      have hdisj : ∀ x ∈ numericCols, x ∉ stringCols := by decide
      exact hdisj c hc
    have hr' : r ∈ (raw.map normKeys).map (fun r0 =>
        applyCols cleanCell stringCols (columnsOf (raw.map normKeys))
          (applyCols coerceCell numericCols (columnsOf (raw.map normKeys))
            (reindex (columnsOf (raw.map normKeys)) r0))) := hr
    obtain ⟨r0, _, rfl⟩ := List.mem_map.mp hr'
    by_cases hmem : c ∈ columnsOf (raw.map normKeys)
    · rw [getCol_applyCols_not_mem cleanCell _ _ hns,
        getCol_applyCols_mem coerceCell _ (by decide) hc hmem
          ((hasCol_reindex _ r0 c).mpr hmem)]
      cases htn : toNumeric (getCol (reindex (columnsOf (raw.map normKeys)) r0) c) with
      | none => exact Or.inl (by simp [coerceCell, htn])
      | some q => exact Or.inr ⟨q, by simp [coerceCell, htn]⟩
    · refine Or.inl (getCol_eq_null_of_hasCol_false ?_)
      rw [hasCol_applyCols, hasCol_applyCols]
      cases hhc : hasCol (reindex (columnsOf (raw.map normKeys)) r0) c
      · rfl
      · exact absurd ((hasCol_reindex _ r0 c).mp hhc) hmem
  · intro s h
    simp [coerceCell, toNumeric, h]

/-- Claim C3, amended, witness at a concrete input: the ingested
final_match_rate cell of a concrete row is null or a number. -/
theorem c3_coercion_amended_witness :
    getCol c3wrow "final_match_rate" = Value.null ∨
      ∃ q : ℚ, getCol c3wrow "final_match_rate" = Value.num q :=
  c3_coercion_amended.1 c3wraw c3wrow "final_match_rate" (by decide) (by decide)

/-- Claim C6, counterexample.  The claim says every descriptive string
field is never empty after ingestion; but a whitespace-only value is
truthy, so the lambda at app.py line 195 strips it to the empty string
rather than replacing it with the sentinel: a fullname of " " ingests to
"", which is empty and is not the sentinel. -/
theorem c6_counterexample :
    cleanCell (Value.str " ") = Value.str "" ∧
    ((ingest c6raw).2.map (fun r => getCol r "fullname")) = [Value.str ""] ∧
    ("" : String) ≠ sentinel := by decide

/-- Claim C6, amended: after ingestion every present descriptive string
column holds a string (never null); null, empty, and the exact literals
"None"/"null" become the sentinel; any other string value is trimmed of
surrounding whitespace — so a whitespace-only value becomes the empty
string, not the sentinel, and the output can be empty. -/
theorem c6_strings_amended :
    (∀ v : Value, ∃ s, cleanCell v = Value.str s) ∧
    (cleanCell Value.null = Value.str sentinel ∧
     cleanCell (Value.str "") = Value.str sentinel ∧
     cleanCell (Value.str "None") = Value.str sentinel ∧
     cleanCell (Value.str "null") = Value.str sentinel) ∧
    (∀ s : String, s ≠ "" → s ≠ "None" → s ≠ "null" →
      cleanCell (Value.str s) = Value.str (pyStrip s)) ∧
    (∀ (raw : List Rec) (r : Rec) (c : String), r ∈ (ingest raw).2 →
      c ∈ stringCols → c ∈ (ingest raw).1 →
      ∃ s, getCol r c = Value.str s) := by
  refine ⟨cleanCell_isStr, by decide, fun s h1 h2 h3 => cleanCell_str_other h1 h2 h3, ?_⟩
  intro raw r c hr hc hcols
  have hnn : c ∉ numericCols := by
    have hdisj : ∀ x ∈ stringCols, x ∉ numericCols := by decide
    exact hdisj c hc
  have hr' : r ∈ (raw.map normKeys).map (fun r0 =>
      applyCols cleanCell stringCols (columnsOf (raw.map normKeys))
        (applyCols coerceCell numericCols (columnsOf (raw.map normKeys))
          (reindex (columnsOf (raw.map normKeys)) r0))) := hr
  obtain ⟨r0, _, rfl⟩ := List.mem_map.mp hr'
  have hmem : c ∈ columnsOf (raw.map normKeys) := hcols
  have hk : hasCol (applyCols coerceCell numericCols
      (columnsOf (raw.map normKeys))
      (reindex (columnsOf (raw.map normKeys)) r0)) c = true := by
    rw [hasCol_applyCols]
    exact (hasCol_reindex _ r0 c).mpr hmem
  rw [getCol_applyCols_mem cleanCell _ (by decide) hc hmem hk]
  exact cleanCell_isStr _

/-- Claim C6, amended, witness: a concrete ordinary string value is
trimmed. -/
theorem c6_strings_amended_witness :
    cleanCell (Value.str " a ") = Value.str (pyStrip " a ") :=
  c6_strings_amended.2.2.1 " a " (by decide) (by decide) (by decide)

/-- Claim C2: under the direct aggregation of app.py line 251 each
subject's final score is the maximum of the non-missing server-reported
final_match_rate values over that subject's rows — a member of those
values (hence one representative value, never their sum), an upper bound
of them, and null when no value is present. -/
theorem c2_direct_aggregation (cols : List String) (rows : List Rec)
    (k : Value) (hc : "final_match_rate" ∈ cols) :
    (aggRow cols rows k).final_match_rate =
      qmax (nonNullNums (colVals (groupRows rows k) "final_match_rate")) ∧
    (∀ m : ℚ,
      qmax (nonNullNums (colVals (groupRows rows k) "final_match_rate")) =
        some m →
      m ∈ nonNullNums (colVals (groupRows rows k) "final_match_rate") ∧
      ∀ q ∈ nonNullNums (colVals (groupRows rows k) "final_match_rate"),
        q ≤ m) ∧
    (nonNullNums (colVals (groupRows rows k) "final_match_rate") = [] →
      (aggRow cols rows k).final_match_rate = none) := by
  refine ⟨by simp [aggRow, hc], fun m hm => ⟨qmax_mem hm, qmax_isUB hm⟩, ?_⟩
  intro h
  simp [aggRow, hc, h, qmax]

/-- Claim C2, witness at a concrete input: values 80, null, 90 for one
subject aggregate to 90, which is one of the reported values (and not
their sum 170). -/
theorem c2_direct_aggregation_witness :
    (aggRow ["final_match_rate"] c2rows (Value.str "e1")).final_match_rate =
      some 90 ∧
    (90 : ℚ) ∈
      nonNullNums (colVals (groupRows c2rows (Value.str "e1"))
        "final_match_rate") := by
  have h := c2_direct_aggregation ["final_match_rate"] c2rows
    (Value.str "e1") (by decide)
  exact ⟨by rw [h.1]; decide, (h.2.1 90 (by decide)).1⟩

/-- Claim C7: an empty scoring-call result halts the pipeline, before any
aggregation, with the distinct no-results outcome (a warning, not an
error) and produces exactly zero RankedSubjects. -/
theorem c7_empty_result :
    processResults ([] : List Rec) = Outcome.noResults ∧
    rankedCount [] = 0 ∧
    isErrorOutcome (processResults ([] : List Rec)) = false := by decide

theorem mem_groupKeys {rows : List Rec} {r : Rec} (hr : r ∈ rows)
    (hk : getCol r "employee_id" ≠ Value.null) :
    getCol r "employee_id" ∈ groupKeys rows := by
  simp only [groupKeys, List.mem_dedup, List.mem_filter]
  exact ⟨List.mem_map_of_mem _ hr, by simpa using hk⟩

/-- Claim C5, counterexample.  The claim says an input schema missing a
canonical field never causes a failure; but when the grade column is
absent the guarded aggregation skips it and the unguarded df_display
column selection at app.py line 280 then raises an uncaught KeyError: a
well-formed input without a grade column aborts the run. -/
theorem c5_counterexample :
    isErrorOutcome (processResults c5raw) = true ∧
    "grade" ∉ (ingest c5raw).1 ∧
    dfEmpty c5raw = false := by decide

/-- Claim C5, amended: the pipeline degrades gracefully only for absent
numeric fields (an absent final_match_rate yields null scores); when all
four descriptive columns are present (and grouping is possible) the run
succeeds, but when any descriptive column is absent the display selection
fails, aborting the run. -/
theorem c5_schema_amended (raw : List Rec)
    (hne : dfEmpty raw = false)
    (hid : "employee_id" ∈ (ingest raw).1)
    (hkey : ∃ r ∈ (ingest raw).2, getCol r "employee_id" ≠ Value.null) :
    (("fullname" ∈ (ingest raw).1 ∧ "position_name" ∈ (ingest raw).1 ∧
      "directorate" ∈ (ingest raw).1 ∧ "grade" ∈ (ingest raw).1) →
      ∃ emp disp, processResults raw = Outcome.ok (emp, disp) ∧
        ("final_match_rate" ∉ (ingest raw).1 →
          ∀ e ∈ emp, e.final_match_rate = none)) ∧
    (¬ ("fullname" ∈ (ingest raw).1 ∧ "position_name" ∈ (ingest raw).1 ∧
      "directorate" ∈ (ingest raw).1 ∧ "grade" ∈ (ingest raw).1) →
      isErrorOutcome (processResults raw) = true) := by
  obtain ⟨r, hrmem, hrkey⟩ := hkey
  have hagg : ¬ ((aggregate (ingest raw).1 (ingest raw).2).isEmpty = true) := by
    have hk := mem_groupKeys hrmem hrkey
    intro hempty
    rw [List.isEmpty_iff] at hempty
    have : groupKeys (ingest raw).2 = [] := by
      simpa [aggregate] using List.map_eq_nil_iff.mp hempty
    rw [this] at hk
    simp at hk
  constructor
  · intro hdesc
    refine ⟨aggregate (ingest raw).1 (ingest raw).2,
      (sortRanked (aggregate (ingest raw).1 (ingest raw).2)).filterMap
        displayOf, ?_, ?_⟩
    · simp only [processResults]
      rw [if_neg (by simp [hne]), if_neg (not_not_intro hid),
        if_neg hagg, if_pos hdesc]
    · intro hfmr e he
      obtain ⟨k, _, rfl⟩ := List.mem_map.mp he
      simp [aggRow, hfmr]
  · intro hdesc
    simp only [processResults]
    rw [if_neg (by simp [hne]), if_neg (not_not_intro hid),
      if_neg hagg, if_neg hdesc]
    rfl

/-- Claim C5, amended, witness: a concrete input with all descriptive
columns but no final_match_rate column is processed successfully. -/
theorem c5_schema_amended_witness :
    ∃ emp disp, processResults c5wraw = Outcome.ok (emp, disp) := by
  obtain ⟨emp, disp, hok, _⟩ :=
    (c5_schema_amended c5wraw (by decide) (by decide) (by decide)).1
      (by decide)
  exact ⟨emp, disp, hok⟩

/-- Claim C4, counterexample.  The claim says the number of RankedSubjects
equals the number of distinct subject_id values in the ingested rows; but
pandas groupby drops rows whose key is missing (dropna defaults to true),
so two ingested rows with the distinct employee_id values "e1" and null
aggregate to a single RankedSubject. -/
theorem c4_counterexample :
    (aggregate (ingest c4raw).1 (ingest c4raw).2).length = 1 ∧
    (((ingest c4raw).2.map (fun r => getCol r "employee_id")).dedup).length
      = 2 := by decide

/-- Claim C4, amended: the number of RankedSubjects equals the number of
distinct non-null employee_id values of the ingested rows; rows with a
null employee_id are silently dropped by the grouping step. -/
theorem c4_conservation_amended (raw : List Rec) (emp : List EmpRow)
    (disp : List DisplayRow)
    (h : processResults raw = Outcome.ok (emp, disp)) :
    emp.length =
      ((((ingest raw).2.map (fun r => getCol r "employee_id")).filter
        (fun v => v ≠ Value.null)).dedup).length := by
  simp only [processResults] at h
  split at h
  · exact absurd h (by simp)
  · split at h
    · exact absurd h (by simp)
    · split at h
      · exact absurd h (by simp)
      · split at h
        · rw [Outcome.ok.injEq, Prod.mk.injEq] at h
          obtain ⟨he, _⟩ := h
          subst he
          simp [aggregate, groupKeys]
        · exact absurd h (by simp)

/-- Claim C4, amended, witness at a concrete successful run. -/
theorem c4_conservation_amended_witness :
    c4wEmp.length =
      ((((ingest c4wraw).2.map (fun r => getCol r "employee_id")).filter
        (fun v => v ≠ Value.null)).dedup).length :=
  c4_conservation_amended c4wraw c4wEmp c4wDisp (by decide)

/-- Claim C8: the scoring call is never invoked unless the benchmark
insert already succeeded: whenever the scoring call occurs in a run
trace, the trace begins with the benchmark insert followed by the scoring
call, and when the insert fails (raises, or returns no data) the scoring
call never occurs. -/
theorem c8_insert_precedes_scoring :
    (∀ i : RunInput, Event.scoringCall ∈ runTrace i →
      ∃ rest, runTrace i =
        Event.benchmarkInsert :: Event.scoringCall :: rest) ∧
    (∀ i : RunInput, i.insertRes ≠ CallRes.returns true →
      Event.scoringCall ∉ runTrace i) := by
  constructor
  · intro i hmem
    unfold runTrace at hmem ⊢
    by_cases hf : (!formOk i) = true
    · rw [if_pos hf] at hmem
      simp at hmem
    · rw [if_neg hf] at hmem ⊢
      cases hins : i.insertRes with
      | raises => rw [hins] at hmem; simp at hmem
      | returns b =>
        cases b
        · rw [hins] at hmem; simp at hmem
        · exact ⟨_, rfl⟩
  · intro i hins hmem
    unfold runTrace at hmem
    by_cases hf : (!formOk i) = true
    · rw [if_pos hf] at hmem
      simp at hmem
    · rw [if_neg hf] at hmem
      cases hi : i.insertRes with
      | raises => rw [hi] at hmem; simp at hmem
      | returns b =>
        cases b
        · rw [hi] at hmem; simp at hmem
        · exact hins hi

/-- Claim C8, witness: a concrete successful-insert run places the insert
immediately before the scoring call, and a concrete failed-insert run
never reaches the scoring call. -/
theorem c8_insert_precedes_scoring_witness :
    (∃ rest, runTrace c8win =
      Event.benchmarkInsert :: Event.scoringCall :: rest) ∧
    Event.scoringCall ∉ runTrace c8win2 :=
  ⟨c8_insert_precedes_scoring.1 c8win (by decide),
   c8_insert_precedes_scoring.2 c8win2 (by decide)⟩

/-- Claim C9, counterexample.  The claim says every failure of the
narrative call (a connectivity error or a malformed response among them)
is non-fatal and never raises; but requests.post at app.py line 326 and
res.json() at line 329 are both outside the try block, so a connectivity
failure raises out of call_gemini and aborts the narrative section, and
so does a 200 response whose body is not valid JSON. -/
theorem c9_counterexample :
    callGemini (some "key") (HttpOutcome.raises "ConnectionError") =
      Except.error "ConnectionError" ∧
    callGemini (some "key")
      (HttpOutcome.resp 200 "not json" (GemBody.notJson "JSONDecodeError"))
      = Except.error "JSONDecodeError" ∧
    narrative c9env = Except.error "ConnectionError" := ⟨rfl, rfl, rfl⟩

/-- Claim C9, amended: a missing API key, a non-200 response, and a valid
JSON body lacking the expected candidates field are each returned as an
error string (non-fatal, no exception), and the ranking output never
depends on the narrative outcomes; a connectivity error or a 200 response
whose body is not valid JSON, however, raises uncaught and aborts the
narrative section (after the ranking has already been rendered). -/
theorem c9_narrative_amended :
    (∀ h : HttpOutcome, callGemini none h =
      Except.ok "[AI Error: GOOGLE_API_KEY tidak ditemukan]") ∧
    (∀ (k : String) (st : Nat) (t : String) (b : GemBody), st ≠ 200 →
      callGemini (some k) (HttpOutcome.resp st t b) =
        Except.ok ("[AI Error " ++ toString st ++ "] " ++ t)) ∧
    (∀ k t : String,
      callGemini (some k) (HttpOutcome.resp 200 t GemBody.jsonNoText) =
        Except.ok "[AI tidak mengembalikan hasil]") ∧
    (∀ (k t e : String),
      callGemini (some k) (HttpOutcome.resp 200 t (GemBody.notJson e)) =
        Except.error e) ∧
    (∀ (k e : String),
      callGemini (some k) (HttpOutcome.raises e) = Except.error e) ∧
    (∀ (raw : List Rec) (env env2 : GeminiEnv),
      (fullRun raw env).1 = (fullRun raw env2).1) := by
  refine ⟨fun h => rfl, ?_, fun k t => rfl, fun k t e => rfl,
    fun k e => rfl, ?_⟩
  · intro k st t b hst
    simp [callGemini, hst]
  · intro raw env env2
    unfold fullRun
    cases processResults raw <;> rfl

/-- Claim C9, amended, witness: a concrete 404 response comes back as an
error string, not an exception. -/
theorem c9_narrative_amended_witness :
    callGemini (some "k") (HttpOutcome.resp 404 "nf" GemBody.jsonNoText) =
      Except.ok ("[AI Error " ++ toString 404 ++ "] " ++ "nf") :=
  c9_narrative_amended.2.1 "k" 404 "nf" GemBody.jsonNoText (by decide)

/-! ## Helper lemmas about Python dicts and the stable sort (C10) -/

theorem dictGet_append (d l : List (String × String)) (k : String) :
    dictGet (d ++ l) k =
      match dictGet d k with
      | some v => some v
      | none => dictGet l k := by
  induction d with
  | nil => rfl
  | cons p d ih =>
    by_cases hp : p.1 = k
    · simp [dictGet, hp]
    · simp [dictGet, hp, ih]

theorem dictGet_none_of_not_mem {d : List (String × String)} {k : String}
    (h : k ∉ d.map Prod.fst) : dictGet d k = none := by
  induction d with
  | nil => rfl
  | cons p d ih =>
    simp only [List.map_cons, List.mem_cons] at h
    push_neg at h
    obtain ⟨h1, h2⟩ := h
    simp only [dictGet, if_neg (fun hh : p.1 = k => h1 hh.symm)]
    exact ih h2

theorem dictGet_map_update (d : List (String × String)) (k v : String) :
    dictGet (d.map (fun p => if p.1 = k then (k, v) else p)) k =
      if k ∈ d.map Prod.fst then some v else none := by
  induction d with
  | nil => simp [dictGet]
  | cons p d ih =>
    by_cases hp : p.1 = k
    · simp [dictGet, hp]
    · have h1 : ¬ k = p.1 := fun hh => hp hh.symm
      simp only [List.map_cons, if_neg hp, dictGet, ih, List.mem_cons]
      simp only [eq_false h1, false_or]

theorem dictGet_map_update_ne (d : List (String × String)) (k v k' : String)
    (h : k' ≠ k) :
    dictGet (d.map (fun p => if p.1 = k then (k, v) else p)) k' =
      dictGet d k' := by
  induction d with
  | nil => rfl
  | cons p d ih =>
    by_cases hp : p.1 = k
    · have h1 : ¬ k = k' := fun hh => h hh.symm
      have h2 : ¬ p.1 = k' := fun hh => h (hh.symm.trans hp)
      simp only [List.map_cons, if_pos hp, dictGet, if_neg h1, if_neg h2]
      exact ih
    · by_cases hp' : p.1 = k'
      · simp only [List.map_cons, if_neg hp, dictGet, if_pos hp']
      · simp only [List.map_cons, if_neg hp, dictGet, if_neg hp']
        exact ih

theorem dictGet_dictInsert_self (d : List (String × String)) (k v : String) :
    dictGet (dictInsert d k v) k = some v := by
  unfold dictInsert
  split
  · next hmem => rw [dictGet_map_update, if_pos hmem]
  · next hmem =>
    rw [dictGet_append, dictGet_none_of_not_mem hmem]
    simp [dictGet]

theorem dictGet_dictInsert_ne (d : List (String × String)) (k v k' : String)
    (h : k' ≠ k) : dictGet (dictInsert d k v) k' = dictGet d k' := by
  unfold dictInsert
  split
  · exact dictGet_map_update_ne d k v k' h
  · rw [dictGet_append]
    cases hd : dictGet d k' with
    | some v' => rfl
    | none =>
      have h1 : ¬ k = k' := fun hh => h hh.symm
      simp [dictGet, h1]

theorem dictGet_buildDict (ps : List (String × String)) (k : String) :
    dictGet (buildDict ps) k =
      (ps.reverse.find? (fun p => p.1 = k)).map Prod.snd := by
  induction ps using List.reverseRecOn with
  | nil => rfl
  | append_singleton ps p ih =>
    rw [buildDict, List.foldl_append, List.foldl_cons, List.foldl_nil,
      List.reverse_append]
    by_cases hp : p.1 = k
    · rw [show dictGet (dictInsert (ps.foldl
          (fun d q => dictInsert d q.1 q.2) []) p.1 p.2) k = some p.2 from by
        rw [hp]; exact dictGet_dictInsert_self _ _ _]
      simp [List.find?_cons, hp]
    · rw [dictGet_dictInsert_ne _ _ _ _ (fun hh => hp hh.symm)]
      rw [show ps.foldl (fun d q => dictInsert d q.1 q.2) [] = buildDict ps
        from rfl, ih]
      simp [List.find?_cons, hp]

theorem foldl_dictInsert_nodup (ps : List (String × String)) :
    ∀ acc : List (String × String),
      ((acc ++ ps).map Prod.fst).Nodup →
      ps.foldl (fun d p => dictInsert d p.1 p.2) acc = acc ++ ps := by
  induction ps with
  | nil => intro acc _; simp
  | cons p ps ih =>
    intro acc h
    rw [List.foldl_cons]
    have hnotmem : p.1 ∉ acc.map Prod.fst := by
      intro hmem
      rw [List.map_append] at h
      obtain ⟨_, _, hdisj⟩ := List.nodup_append.mp h
      exact hdisj hmem (by simp)
    have hins : dictInsert acc p.1 p.2 = acc ++ [p] := by
      unfold dictInsert
      rw [if_neg hnotmem, Prod.mk.eta]
    rw [hins, ih (acc ++ [p])
      (by rw [List.append_assoc, List.singleton_append]; exact h),
      List.append_assoc, List.singleton_append]

theorem buildDict_of_nodup {ps : List (String × String)}
    (h : (ps.map Prod.fst).Nodup) : buildDict ps = ps := by
  have := foldl_dictInsert_nodup ps [] (by simpa using h)
  simpa [buildDict] using this

theorem insFull_perm (x : EmpRec) (l : List EmpRec) :
    List.Perm (insFull x l) (x :: l) := by
  induction l with
  | nil => exact List.Perm.refl _
  | cons y ys ih =>
    unfold insFull
    split
    · exact List.Perm.refl _
    · exact (List.Perm.cons y ih).trans (List.Perm.swap x y ys)

theorem sortByFullname_perm (l : List EmpRec) :
    List.Perm (sortByFullname l) l := by
  suffices h : ∀ l2 acc : List EmpRec,
      List.Perm (l2.foldl (fun a x => insFull x a) acc) (acc ++ l2) by
    simpa [sortByFullname] using h l []
  intro l2
  induction l2 with
  | nil => intro acc; simp
  | cons x xs ih =>
    intro acc
    rw [List.foldl_cons]
    refine (ih (insFull x acc)).trans ?_
    refine ((insFull_perm x acc).append_right xs).trans ?_
    simpa using List.perm_middle.symm

theorem getEmployeesDict_eq {data : List EmpRec}
    (h : (data.map EmpRec.employee_id).Nodup) :
    getEmployeesDict data =
      (sortByFullname data).map (fun e => (e.employee_id, e.fullname)) := by
  apply buildDict_of_nodup
  rw [List.map_map]
  have hperm : List.Perm ((sortByFullname data).map EmpRec.employee_id)
      (data.map EmpRec.employee_id) := (sortByFullname_perm data).map _
  exact hperm.nodup_iff.mpr h

/-- Claim C10: benchmark name resolution inverts the fullname-keyed
dictionary built from the fullname-sorted directory; with pairwise
distinct employee ids, looking a name up in id_map yields the employee_id
of the last directory entry bearing that exact fullname in fullname-sorted
order (the first match of the reversed sorted list); since the dict holds
one id per name, duplicate fullnames collapse to that single id and the
other employees with that name can never be selected. -/
theorem c10_benchmark_resolution (data : List EmpRec)
    (hids : (data.map EmpRec.employee_id).Nodup) (name : String)
    (e : EmpRec)
    (hlast : (sortByFullname data).reverse.find?
      (fun r => r.fullname = name) = some e) :
    dictGet (idMap data) name = some e.employee_id := by
  rw [idMap, getEmployeesDict_eq hids, List.map_map, dictGet_buildDict,
    ← List.map_reverse, List.find?_map]
  have hpred : ((fun p : String × String => decide (p.1 = name)) ∘
      ((fun p : String × String => (p.2, p.1)) ∘
        (fun e : EmpRec => (e.employee_id, e.fullname)))) =
      (fun r : EmpRec => decide (r.fullname = name)) := rfl
  rw [hpred, hlast]
  rfl

/-- Claim C10, witness: in a directory with two employees named Budi, the
name Budi resolves to the id of the later entry in fullname-sorted order,
id3. -/
theorem c10_benchmark_resolution_witness :
    dictGet (idMap c10data) "Budi" = some "id3" :=
  c10_benchmark_resolution c10data (by decide) "Budi" ⟨"id3", "Budi"⟩
    (by decide)

end EmployeeApp
